import Mathlib

/-!
Verification of the PyTransit numerical kernels against their specification.

This file gives a shallow embedding, over exact rational arithmetic, of the
two source files of the repository:

* `pytransit/lpf/tesslpf.py` — the time binner `downsample_time`;
* `pytransit/models/ldtkldm.py` — the trapezoidal integrator `ntrapz`, the
  limb-darkening evaluators `eval_ldm` / `eval_ldm_frozen`, and the
  `LDModel` / `LDTkLDModel` classes.

Modelling conventions:

* Python floats are modelled as rationals (`ℚ`); the float constant `pi`
  is an explicit parameter (always accompanied by the hypothesis `0 < pi`
  where it matters), and `numpy.sqrt` is an explicit function parameter
  `sqrt : ℚ → ℚ`, so every definition stays executable.
* `nan` cells are modelled as `none : Option ℚ`; the code never does
  arithmetic on its `nan` sentinels, it only writes and filters them.
* Python exceptions are modelled with `Except` (for the binner, whose
  errors come from numpy with fixed messages) and with the `PyError`
  type (for the limb-darkening classes).
* The two `numpy.random.randint` draws are hoisted into explicit
  parameters: `iis` (the per-row draw made inside `eval_ldm`) and
  `iDraw` (the draw `LDTkLDModel.__call__` stores into `self._i`).
-/

attribute [local semireducible] Rat.mul Rat.inv Rat.add Rat.sub

instance exceptDecEq {ε α : Type} [DecidableEq ε] [DecidableEq α] :
    DecidableEq (Except ε α) := fun x y =>
  match x, y with
  | .error a, .error b =>
      if h : a = b then .isTrue (by rw [h]) else .isFalse (fun hc => h (by injection hc))
  | .ok a, .ok b =>
      if h : a = b then .isTrue (by rw [h]) else .isFalse (fun hc => h (by injection hc))
  | .error _, .ok _ => .isFalse (fun hc => Except.noConfusion hc)
  | .ok _, .error _ => .isFalse (fun hc => Except.noConfusion hc)

/-- Exceptions raised by the limb-darkening model classes. -/
inductive PyError : Type where
  | notImplementedError : PyError
deriving DecidableEq

/-! ## The time binner (`pytransit/lpf/tesslpf.py`, `downsample_time`)

```python
@njit
def downsample_time(time, vals, inttime=1.):
    duration = time.max() - time.min()
    nbins = int(ceil(duration / inttime))
    bins = arange(nbins)
    edges = time[0] + bins * inttime
    bids = digitize(time, edges) - 1
    bt, bv, be = full(nbins, nan), zeros(nbins), zeros(nbins)
    for i, bid in enumerate(bins):
        bmask = bid == bids
        if bmask.sum() > 0:
            bt[i] = time[bmask].mean()
            bv[i] = vals[bmask].mean()
            if bmask.sum() > 2:
                be[i] = vals[bmask].std() / sqrt(bmask.sum())
            else:
                be[i] = nan
    m = isfinite(be)
    return bt[m], bv[m], be[m]
```
-/

/-- Model of `numpy` `arr.max()` for a non-empty list (the empty case raises and is
handled by the caller `downsample_time`). -/
def npMax (l : List ℚ) : ℚ := l.foldl max (l.headD 0)

/-- Model of `numpy` `arr.min()` for a non-empty list. -/
def npMin (l : List ℚ) : ℚ := l.foldl min (l.headD 0)

/-- Model of `numpy` `arr.mean()`: sum divided by length. -/
def npMean (l : List ℚ) : ℚ := l.sum / (l.length : ℚ)

/-- Model of `numpy` `arr.var()` with the default `ddof=0`: mean of squared
deviations from the mean. -/
def npVar (l : List ℚ) : ℚ := (l.map (fun v => (v - npMean l) ^ 2)).sum / (l.length : ℚ)

/-- Model of `numpy` `arr.std()` with the default `ddof=0`: square root of `npVar`,
with `numpy.sqrt` passed in as the explicit parameter `sqrt`. -/
def npStd (sqrt : ℚ → ℚ) (l : List ℚ) : ℚ := sqrt (npVar l)

/-- Model of `numpy.digitize(t, edges)` with the default `right=False`, for
monotonically increasing `edges` (the only reachable configuration in
`downsample_time`): the number of edges `≤ t`. -/
def digitize (t : ℚ) (edges : List ℚ) : Int :=
  ((edges.countP fun e => decide (e ≤ t)) : Int)

/-- The bin count `nbins = int(ceil(duration / inttime))`, as a natural number (the
negative case is rejected by `downsample_time` before this is used). -/
def nbinsOf (time : List ℚ) (inttime : ℚ) : ℕ :=
  (⌈(npMax time - npMin time) / inttime⌉ : Int).toNat

/-- The edge array `edges = time[0] + bins * inttime`: bin edges anchored at the FIRST
element of `time` (not at its minimum). -/
def edgesOf (time : List ℚ) (inttime : ℚ) : List ℚ :=
  (List.range (nbinsOf time inttime)).map fun k => time.headD 0 + (k : ℚ) * inttime

/-- Bin edges anchored at `min(time)`; this follows the SPEC's words
("Bin edges start at `min(time)`") and exists only to be compared with
`edgesOf`, which is what the code computes. -/
def edgesMinOrigin (time : List ℚ) (inttime : ℚ) : List ℚ :=
  (List.range (nbinsOf time inttime)).map fun k => npMin time + (k : ℚ) * inttime

/-- The bin ids `bids = digitize(time, edges) - 1`. -/
def bidsOf (time : List ℚ) (inttime : ℚ) : List Int :=
  time.map fun t => digitize t (edgesOf time inttime) - 1

/-- The bin ids computed against the spec's min-anchored edges. -/
def bidsMinOrigin (time : List ℚ) (inttime : ℚ) : List Int :=
  time.map fun t => digitize t (edgesMinOrigin time inttime) - 1

/-- The elements of `xs` at the positions where `bids` equals `i`
(`xs[bmask]` for `bmask = bid == bids`). -/
def selectBin (xs : List ℚ) (bids : List Int) (i : Int) : List ℚ :=
  ((xs.zip bids).filter fun p => decide (p.2 = i)).map Prod.fst

/-- One iteration of the `for i, bid in enumerate(bins)` loop: the values
the loop leaves in `bt[i]`, `bv[i]`, `be[i]`.  An empty bin keeps the
initializations `bt[i] = nan` (`none`), `bv[i] = 0`, `be[i] = 0`
(note: `be` is initialized with `zeros`, not `nan`). -/
def binRow (sqrt : ℚ → ℚ) (time vals : List ℚ) (bids : List Int) (i : ℕ) :
    Option ℚ × ℚ × Option ℚ :=
  let ts := selectBin time bids (i : Int)
  let vs := selectBin vals bids (i : Int)
  if ts.length = 0 then (none, 0, some 0)
  else
    (some (npMean ts), npMean vs,
      if 2 < ts.length then some (npStd sqrt vs / sqrt (ts.length : ℚ)) else none)

/-- The time binner `downsample_time`.  Error cases mirror what numpy does
for the code as written: `time.max()` on an empty array raises a
zero-size-reduction `ValueError`, and `full(nbins, nan)` with a negative
`nbins` raises `ValueError: negative dimensions are not allowed`.  The
`inttime = 0` case divides by zero and feeds a non-finite float to `int()`,
which is undefined behaviour under numba; it is modelled as an error. -/
def downsample_time (sqrt : ℚ → ℚ) (time vals : List ℚ) (inttime : ℚ) :
    Except String (List (Option ℚ) × List ℚ × List ℚ) :=
  match time with
  | [] => .error "zero-size array to reduction operation maximum which has no identity"
  | _ :: _ =>
    if inttime = 0 then .error "undefined conversion of a non-finite bin count"
    else if (⌈(npMax time - npMin time) / inttime⌉ : Int) < 0 then
      .error "negative dimensions are not allowed"
    else
      let rows := (List.range (nbinsOf time inttime)).map
        (binRow sqrt time vals (bidsOf time inttime))
      let kept := rows.filter fun r => r.2.2.isSome
      .ok (kept.map (fun r => r.1), kept.map (fun r => r.2.1),
           kept.map (fun r => r.2.2.getD 0))

/-- The binner as the spec describes it for claim C1: identical to
`downsample_time` except that the bin edges are anchored at `min(time)`
instead of `time[0]`. -/
def downsample_time_minOrigin (sqrt : ℚ → ℚ) (time vals : List ℚ) (inttime : ℚ) :
    Except String (List (Option ℚ) × List ℚ × List ℚ) :=
  match time with
  | [] => .error "zero-size array to reduction operation maximum which has no identity"
  | _ :: _ =>
    if inttime = 0 then .error "undefined conversion of a non-finite bin count"
    else if (⌈(npMax time - npMin time) / inttime⌉ : Int) < 0 then
      .error "negative dimensions are not allowed"
    else
      let rows := (List.range (nbinsOf time inttime)).map
        (binRow sqrt time vals (bidsMinOrigin time inttime))
      let kept := rows.filter fun r => r.2.2.isSome
      .ok (kept.map (fun r => r.1), kept.map (fun r => r.2.1),
           kept.map (fun r => r.2.2.getD 0))

/-- The per-bin retention rule stated by the amended claim C5: a bin with
at least one sample and more than two samples is kept as
`(mean time, mean value, std/sqrt(count))`; a bin with one or two samples
gets the `nan` error sentinel and is dropped; an EMPTY bin is kept, with
`nan` mean time, zero mean value and zero error, because the error array
is initialized with zeros rather than `nan`. -/
def keptBinAmended (sqrt : ℚ → ℚ) (time vals : List ℚ) (bids : List Int) (i : ℕ) :
    Option (Option ℚ × ℚ × ℚ) :=
  let ts := selectBin time bids (i : Int)
  let vs := selectBin vals bids (i : Int)
  if ts.length = 0 then some (none, 0, 0)
  else if 2 < ts.length then
    some (some (npMean ts), npMean vs, npStd sqrt vs / sqrt (ts.length : ℚ))
  else none

/-! ## The limb-darkening kernels (`pytransit/models/ldtkldm.py`)

```python
@njit
def ntrapz(x, y):
    npt = x.size
    ii = 0.0
    for i in range(1, npt):
        ii += (x[i] - x[i - 1]) * 0.5 * (y[i] + y[i - 1])
    return ii

@njit
def eval_ldm(emu, mu, z, ldps, npv, nsamples):
    npb = ldps.shape[0]
    ldp = zeros((npv, npb, emu.size))
    ldi = zeros((npv, npb))
    iis = randint(0, nsamples, size=npv)
    for ipv in range(npv):
        for ipb in range(npb):
            ldp[ipv, ipb] = interp(emu, mu, ldps[ipb, iis[ipv]])
            ldi[ipv, ipb] = -2 * pi * ntrapz(z, z * ldps[ipb, iis[ipv]])
    return ldp, ldi

@njit
def eval_ldm_frozen(emu, mu, z, mldps, npv):
    npb = mldps.shape[0]
    ldp = zeros((npv, npb, emu.size))
    ldi = zeros((npv, npb))
    for ipb in range(npb):
        ldp[0, ipb] = interp(emu, mu, mldps[ipb])
        ldi[0, ipb] = -2 * pi * ntrapz(z, z * mldps[ipb])
    for i in range(1, npv):
        ldp[i] = ldp[0]
        ldi[i] = ldi[0]
    return ldp, ldi

class LDModel:
    def __init__(self):
        self._int_z = linspace(0, 1, 200)
        self._int_mu = sqrt(1 - self._int_z ** 2)
    def __call__(self, mu, x):
        raise NotImplementedError
    def integrate(self, x):
        return 2 * pi * trapz(self._int_z * self(self._int_mu, x), self._int_z)

class LDTkLDModel(LDModel):
    def __call__(self, mu, x=None):
        npv = 1 if x is None else x.shape[0]
        self._i = i = randint(0, self.nsamples)
        if self.frozen:
            return eval_ldm_frozen(mu, self.mu, self.z, self.mean_profiles, npv)
        else:
            return eval_ldm(mu, self.mu, self.z, self.profiles, npv, self.nsamples)
    def integrate(self, x):
        raise NotImplementedError
```
-/

/-- The numba loop `ntrapz(x, y)`: `for i in range(1, npt)` accumulating
`(x[i] - x[i-1]) * 0.5 * (y[i] + y[i-1])`, with `npt = x.size`. -/
def ntrapz (x y : List ℚ) : ℚ :=
  (List.range' 1 (x.length - 1)).foldl
    (fun ii i => ii + (x.getD i 0 - x.getD (i - 1) 0) * (1/2) * (y.getD i 0 + y.getD (i - 1) 0))
    0

/-- Model of `numpy.trapz(y, x)`: the same trapezoidal sum, written structurally on
the two (equal-length, in every use) lists. -/
def np_trapz (y x : List ℚ) : ℚ :=
  match x, y with
  | x0 :: x1 :: xs, y0 :: y1 :: ys =>
      (x1 - x0) * (y1 + y0) / 2 + np_trapz (y1 :: ys) (x1 :: xs)
  | _, _ => 0

/-- Model of `numpy.interp` at a single point, for an increasing grid `xp`:
linear interpolation that clamps to the edge values outside the grid. -/
def interp1 (t : ℚ) : List ℚ → List ℚ → ℚ
  | [], _ => 0
  | _ :: _, [] => 0
  | [_], f0 :: _ => f0
  | _ :: _ :: _, [_] => 0
  | x0 :: x1 :: xs, f0 :: f1 :: fs =>
      if t < x0 then f0
      else if t ≤ x1 then f0 + (f1 - f0) * (t - x0) / (x1 - x0)
      else interp1 t (x1 :: xs) (f1 :: fs)

/-- Model of `numpy.interp(emu, mu, fp)` on a vector of query points. -/
def interp (emu mu fp : List ℚ) : List ℚ :=
  emu.map fun t => interp1 t mu fp

/-- The kernel `eval_ldm`: the non-frozen evaluation kernel.  `ldps` is the profile
library indexed `[passband][sample][grid point]`; the internal draw
`iis = randint(0, nsamples, size=npv)` is hoisted into the explicit
parameter `iis`, and the float constant `pi` is the parameter `pi`.
Returns `(ldp, ldi)` with `ldp : [npv][npb][emu.size]` and
`ldi : [npv][npb]`. -/
def eval_ldm (pi : ℚ) (emu mu z : List ℚ) (ldps : List (List (List ℚ)))
    (npv nsamples : ℕ) (iis : List ℕ) :
    List (List (List ℚ)) × List (List ℚ) :=
  let npb := ldps.length
  ((List.range npv).map fun ipv => (List.range npb).map fun ipb =>
      interp emu mu ((ldps.getD ipb []).getD (iis.getD ipv 0) []),
   (List.range npv).map fun ipv => (List.range npb).map fun ipb =>
      -2 * pi * ntrapz z (List.zipWith (· * ·) z ((ldps.getD ipb []).getD (iis.getD ipv 0) [])))

/-- The kernel `eval_ldm_frozen`: the frozen evaluation kernel.  Row 0 is computed
from the mean profiles and rows `1..npv-1` are copies of row 0; no random
draw occurs anywhere. -/
def eval_ldm_frozen (pi : ℚ) (emu mu z : List ℚ) (mldps : List (List ℚ)) (npv : ℕ) :
    List (List (List ℚ)) × List (List ℚ) :=
  let npb := mldps.length
  let row_ldp := (List.range npb).map fun ipb => interp emu mu (mldps.getD ipb [])
  let row_ldi := (List.range npb).map fun ipb =>
    -2 * pi * ntrapz z (List.zipWith (· * ·) z (mldps.getD ipb []))
  ((List.range npv).map fun _ => row_ldp, (List.range npv).map fun _ => row_ldi)

/-- Model of `numpy.linspace(a, b, n)` with the default `endpoint=True`. -/
def linspace (a b : ℚ) (n : ℕ) : List ℚ :=
  (List.range n).map fun i : ℕ => a + (i : ℚ) * ((b - a) / ((n : ℚ) - 1))

/-- From `LDModel.__init__`: `self._int_z = linspace(0, 1, 200)`. -/
def LDModel_int_z : List ℚ := linspace 0 1 200

/-- From `LDModel.__init__`: `self._int_mu = sqrt(1 - self._int_z ** 2)`, with
`numpy.sqrt` as the explicit parameter `sqrt`. -/
def LDModel_int_mu (sqrt : ℚ → ℚ) : List ℚ :=
  LDModel_int_z.map fun zi => sqrt (1 - zi ^ 2)

/-- The base class body of `LDModel.__call__`: it raises
`NotImplementedError` for every input. -/
def LDModel.call (mu : List ℚ) (x : List ℚ) : Except PyError (List ℚ) :=
  .error .notImplementedError

/-- The method `LDModel.integrate`: `2 * pi * trapz(self._int_z * self(self._int_mu, x), self._int_z)`.
The virtual call `self(self._int_mu, x)` is the parameter `call` (with the
parameter vector `x` already applied); if it raises, the exception
propagates. -/
def LDModel.integrate (pi : ℚ) (sqrt : ℚ → ℚ)
    (call : List ℚ → Except PyError (List ℚ)) : Except PyError ℚ :=
  (call (LDModel_int_mu sqrt)).map fun prof =>
    2 * pi * np_trapz (List.zipWith (· * ·) LDModel_int_z prof) LDModel_int_z

/-- The state of an `LDTkLDModel` instance after construction: the native
grids `z`, `mu`, the profile library, the mean profiles, and the
`npb`/`nsamples`/`frozen`/`_i` attributes.  Construction itself (the
external `LDPSetCreator` service) is not modelled. -/
structure LDTkLDModel : Type where
  z : List ℚ
  mu : List ℚ
  profiles : List (List (List ℚ))
  mean_profiles : List (List ℚ)
  npb : ℕ
  nsamples : ℕ
  frozen : Bool
  _i : ℕ

/-- The batch size `npv = 1 if x is None else x.shape[0]`. -/
def npvOf (x : Option (List (List ℚ))) : ℕ :=
  match x with
  | none => 1
  | some xs => xs.length

/-- The method `LDTkLDModel.__call__(mu, x)`: stores a fresh draw
`i = randint(0, self.nsamples)` (the parameter `iDraw`) into `self._i`
and dispatches to the frozen or non-frozen kernel; `iis` is the draw made
inside `eval_ldm` (unused in the frozen branch).  Returns the updated
object together with the `(ldp, ldi)` result. -/
def LDTkLDModel.call (m : LDTkLDModel) (pi : ℚ) (emu : List ℚ)
    (x : Option (List (List ℚ))) (iDraw : ℕ) (iis : List ℕ) :
    LDTkLDModel × (List (List (List ℚ)) × List (List ℚ)) :=
  ({ m with _i := iDraw },
   if m.frozen then eval_ldm_frozen pi emu m.mu m.z m.mean_profiles (npvOf x)
   else eval_ldm pi emu m.mu m.z m.profiles (npvOf x) m.nsamples iis)

/-- The method `LDTkLDModel.integrate`: raises `NotImplementedError` for every `x`. -/
def LDTkLDModel.integrate (m : LDTkLDModel) (x : List ℚ) : Except PyError ℚ :=
  .error .notImplementedError

/-! ## Helper lemmas -/

lemma foldl_add_f (f : ℕ → ℚ) : ∀ (l : List ℕ) (a : ℚ),
    l.foldl (fun s i => s + f i) a = a + (l.map f).sum := by
  intro l
  induction l with
  | nil => intro a; simp
  | cons i l ih => intro a; simp [ih]; ring

lemma sum_map_range (g : ℕ → ℚ) : ∀ n : ℕ,
    ((List.range n).map g).sum = ∑ i ∈ Finset.range n, g i := by
  intro n
  induction n with
  | zero => simp
  | succ n ih => rw [List.range_succ, Finset.sum_range_succ, List.map_append, List.sum_append, ih]; simp

/-- The `ntrapz` loop in closed form. -/
lemma ntrapz_eq_sum (x y : List ℚ) :
    ntrapz x y = ∑ i ∈ Finset.range (x.length - 1),
      (x.getD (i + 1) 0 - x.getD i 0) * (1/2) * (y.getD (i + 1) 0 + y.getD i 0) := by
  unfold ntrapz
  rw [foldl_add_f, List.range'_eq_map_range, List.map_map, sum_map_range]
  simp only [Function.comp, Nat.add_sub_cancel, zero_add]
  refine Finset.sum_congr rfl fun i _ => ?_
  rw [Nat.add_comm 1 i]
  simp

/-- Model of `numpy.trapz` in closed form, for equal-length inputs. -/
lemma np_trapz_eq_sum : ∀ (x y : List ℚ), y.length = x.length →
    np_trapz y x = ∑ i ∈ Finset.range (x.length - 1),
      (x.getD (i + 1) 0 - x.getD i 0) * (y.getD (i + 1) 0 + y.getD i 0) / 2 := by
  intro x
  induction x with
  | nil => intro y h; simp at h; subst h; simp [np_trapz]
  | cons x0 xs ih =>
    intro y h
    cases xs with
    | nil =>
      cases y with
      | nil => simp at h
      | cons y0 ys =>
        simp at h
        subst h
        simp [np_trapz]
    | cons x1 xs' =>
      cases y with
      | nil => simp at h
      | cons y0 ys =>
        cases ys with
        | nil => simp at h
        | cons y1 ys' =>
          have hlen : (y1 :: ys').length = (x1 :: xs').length := by
            simpa using h
          have hsum : ∑ i ∈ Finset.range ((x1 :: xs').length - 1),
                ((x1 :: xs').getD (i + 1) 0 - (x1 :: xs').getD i 0) *
                  ((y1 :: ys').getD (i + 1) 0 + (y1 :: ys').getD i 0) / 2
              = ∑ i ∈ Finset.range ((x1 :: xs').length - 1),
                ((x0 :: x1 :: xs').getD (i + 1 + 1) 0 - (x0 :: x1 :: xs').getD (i + 1) 0) *
                  ((y0 :: y1 :: ys').getD (i + 1 + 1) 0 + (y0 :: y1 :: ys').getD (i + 1) 0) / 2 := by
            refine Finset.sum_congr rfl fun i _ => by simp
          have hn : (x0 :: x1 :: xs').length - 1 = ((x1 :: xs').length - 1) + 1 := by
            simp
          show (x1 - x0) * (y1 + y0) / 2 + np_trapz (y1 :: ys') (x1 :: xs') = _
          rw [ih (y1 :: ys') hlen, hsum, hn, Finset.sum_range_succ', add_comm]
          congr 1

/-- The numba loop and `numpy.trapz` agree on equal-length inputs. -/
lemma ntrapz_eq_np_trapz (x y : List ℚ) (h : x.length = y.length) :
    ntrapz x y = np_trapz y x := by
  rw [ntrapz_eq_sum, np_trapz_eq_sum x y h.symm]
  refine Finset.sum_congr rfl fun i _ => by ring

/-- Telescoping: the trapezoidal integral of the identity on any grid. -/
lemma np_trapz_self : ∀ z : List ℚ,
    np_trapz z z = ((z.getLast?.getD 0) ^ 2 - (z.headD 0) ^ 2) / 2 := by
  intro z
  induction z with
  | nil => simp [np_trapz]
  | cons a t ih =>
    cases t with
    | nil => simp [np_trapz]
    | cons b t' =>
      show (b - a) * (b + a) / 2 + np_trapz (b :: t') (b :: t') = _
      rw [ih, List.getLast?_cons_cons]
      simp only [List.headD_cons]
      ring

/-- Multiplying a grid elementwise with an all-ones profile of the same
length gives back the grid. -/
lemma zipWith_mul_ones : ∀ (z p : List ℚ), z.length ≤ p.length →
    (∀ v ∈ p, v = 1) → List.zipWith (· * ·) z p = z := by
  intro z
  induction z with
  | nil => intro p _ _; simp
  | cons a t ih =>
    intro p hlen hone
    cases p with
    | nil => simp at hlen
    | cons b q =>
      have hb : b = 1 := hone b (by simp)
      simp only [List.zipWith_cons_cons, hb, mul_one]
      exact congrArg (a :: ·) (ih q (by simpa using hlen) fun v hv => hone v (by simp [hv]))

/-- Nonnegativity of the trapezoidal sum over a sorted grid with
nonnegative values. -/
lemma np_trapz_nonneg : ∀ (x y : List ℚ), x.Chain' (· ≤ ·) →
    (∀ v ∈ y, (0:ℚ) ≤ v) → 0 ≤ np_trapz y x := by
  intro x
  induction x with
  | nil => intro y _ _; simp [np_trapz]
  | cons x0 xs ih =>
    intro y hx hy
    cases xs with
    | nil => cases y with
      | nil => simp [np_trapz]
      | cons y0 ys => simp [np_trapz]
    | cons x1 xs' =>
      cases y with
      | nil => simp [np_trapz]
      | cons y0 ys =>
        cases ys with
        | nil => simp [np_trapz]
        | cons y1 ys' =>
          have hx' := List.chain'_cons.mp hx
          have h1 : (0:ℚ) ≤ (x1 - x0) * (y1 + y0) / 2 := by
            have := hy y0 (by simp)
            have := hy y1 (by simp)
            have : (0:ℚ) ≤ y1 + y0 := by linarith
            have hd : (0:ℚ) ≤ x1 - x0 := by linarith [hx'.1]
            positivity
          have h2 : 0 ≤ np_trapz (y1 :: ys') (x1 :: xs') :=
            ih (y1 :: ys') hx'.2 fun v hv => hy v (by simp at hv ⊢; tauto)
          show 0 ≤ (x1 - x0) * (y1 + y0) / 2 + np_trapz (y1 :: ys') (x1 :: xs')
          linarith

/-- Strict positivity of the trapezoidal sum when the first interval is
nondegenerate and carries a positive value. -/
lemma np_trapz_pos (x0 x1 : ℚ) (xs : List ℚ) (y0 y1 : ℚ) (ys : List ℚ)
    (hx : (x0 :: x1 :: xs).Chain' (· ≤ ·)) (h01 : x0 < x1)
    (hy0 : 0 ≤ y0) (hy1 : 0 < y1) (hys : ∀ v ∈ ys, (0:ℚ) ≤ v) :
    0 < np_trapz (y0 :: y1 :: ys) (x0 :: x1 :: xs) := by
  have hx' := List.chain'_cons.mp hx
  have h1 : (0:ℚ) < (x1 - x0) * (y1 + y0) / 2 := by
    have hd : (0:ℚ) < x1 - x0 := by linarith
    have hs : (0:ℚ) < y1 + y0 := by linarith
    positivity
  have h2 : 0 ≤ np_trapz (y1 :: ys) (x1 :: xs) := by
    refine np_trapz_nonneg (x1 :: xs) (y1 :: ys) hx'.2 fun v hv => ?_
    simp at hv
    rcases hv with h | h
    · exact h ▸ le_of_lt hy1
    · exact hys v h
  show 0 < (x1 - x0) * (y1 + y0) / 2 + np_trapz (y1 :: ys) (x1 :: xs)
  linarith

lemma getD_range_map {β : Type} (f : ℕ → β) {n i : ℕ} (h : i < n) (d : β) :
    ((List.range n).map f).getD i d = f i := by
  rw [List.getD_eq_getElem?_getD, List.getElem?_map, List.getElem?_range h]
  rfl

lemma length_int_z : LDModel_int_z.length = 200 := by
  simp [LDModel_int_z, linspace]

lemma int_z_getD {i : ℕ} (h : i < 200) : LDModel_int_z.getD i 0 = (i : ℚ) * (1/199) := by
  unfold LDModel_int_z linspace
  rw [getD_range_map _ h]
  norm_num

lemma int_z_chain : LDModel_int_z.Chain' (· ≤ ·) := by
  unfold LDModel_int_z linspace
  rw [List.chain'_map, show (200:ℕ) = Nat.succ 199 from rfl, List.chain'_range_succ]
  intro m _
  have hstep : (0:ℚ) ≤ (1 - 0) / ((200:ℕ) - 1) := by norm_num
  have hm : (m:ℚ) ≤ (Nat.succ m : ℚ) := by push_cast; linarith
  have := mul_le_mul_of_nonneg_right hm hstep
  linarith

lemma int_z_mem_nonneg : ∀ v ∈ LDModel_int_z, (0:ℚ) ≤ v := by
  unfold LDModel_int_z linspace
  intro v hv
  simp only [List.mem_map, List.mem_range] at hv
  obtain ⟨i, _, rfl⟩ := hv
  positivity

lemma getD_zipWith_mul (as bs : List ℚ) (i : ℕ) (hia : i < as.length) (hib : i < bs.length) :
    (List.zipWith (· * ·) as bs).getD i 0 = as.getD i 0 * bs.getD i 0 := by
  rw [List.getD_eq_getElem?_getD, List.getElem?_zipWith,
    List.getElem?_eq_getElem hia, List.getElem?_eq_getElem hib,
    List.getD_eq_getElem as 0 hia, List.getD_eq_getElem bs 0 hib]
  rfl

lemma zipWith_mul_nonneg : ∀ (as bs : List ℚ), (∀ v ∈ as, (0:ℚ) ≤ v) →
    (∀ v ∈ bs, (0:ℚ) ≤ v) → ∀ v ∈ List.zipWith (· * ·) as bs, (0:ℚ) ≤ v := by
  intro as
  induction as with
  | nil => intro bs _ _ v hv; simp at hv
  | cons a as' ih =>
    intro bs ha hb v hv
    cases bs with
    | nil => simp at hv
    | cons b bs' =>
      simp only [List.zipWith_cons_cons, List.mem_cons] at hv
      rcases hv with h | h
      · subst h
        exact mul_nonneg (ha a (by simp)) (hb b (by simp))
      · exact ih bs' (fun v hv => ha v (by simp [hv])) (fun v hv => hb v (by simp [hv])) v h

/-- Positivity of the trapezoidal sum, phrased with `getD` so that it can
be applied without destructuring concrete lists. -/
lemma np_trapz_pos' (x y : List ℚ) (hx : x.Chain' (· ≤ ·)) (hlen : 2 ≤ x.length)
    (hylen : x.length ≤ y.length)
    (h01 : x.getD 0 0 < x.getD 1 0) (hy0 : 0 ≤ y.getD 0 0) (hy1 : 0 < y.getD 1 0)
    (hys : ∀ v ∈ y, (0:ℚ) ≤ v) : 0 < np_trapz y x := by
  cases x with
  | nil => simp at hlen
  | cons x0 xs =>
    cases xs with
    | nil => simp at hlen
    | cons x1 xs' =>
      cases y with
      | nil => simp at hylen
      | cons y0 ys =>
        cases ys with
        | nil => simp at hylen
        | cons y1 ys' =>
          refine np_trapz_pos x0 x1 xs' y0 y1 ys' hx ?_ ?_ ?_ ?_
          · simpa using h01
          · simpa using hy0
          · simpa using hy1
          · exact fun v hv => hys v (by simp [hv])

/-! ## Claim theorems -/

/-- C9: for every pair of equal-length sequences `x`, `y`, the numeric
integrator `ntrapz` returns exactly the trapezoidal sum
`Σ (x[i]-x[i-1])·(y[i]+y[i-1])/2` for `i = 1..n-1`, and for inputs of
length 0 or 1 it returns `0.0` without raising an error. -/
theorem C9_ntrapz_trapezoidal_sum (x y : List ℚ) (h : x.length = y.length) :
    (ntrapz x y = ∑ i ∈ Finset.range (x.length - 1),
      (x.getD (i + 1) 0 - x.getD i 0) * (y.getD (i + 1) 0 + y.getD i 0) / 2) ∧
    (x.length ≤ 1 → ntrapz x y = 0) := by
  constructor
  · rw [ntrapz_eq_sum]
    exact Finset.sum_congr rfl fun i _ => by ring
  · intro hl
    rw [ntrapz_eq_sum, show x.length - 1 = 0 by omega]
    simp

/-- Witness for C9 at the spec's own example `integrate([0,1,2],[1,1,1])`. -/
theorem C9_ntrapz_trapezoidal_sum_witness :
    (([0, 1, 2] : List ℚ).length = ([1, 1, 1] : List ℚ).length) ∧
    ((ntrapz [0, 1, 2] [1, 1, 1] = ∑ i ∈ Finset.range (([0, 1, 2] : List ℚ).length - 1),
        (([0, 1, 2] : List ℚ).getD (i + 1) 0 - ([0, 1, 2] : List ℚ).getD i 0) *
          (([1, 1, 1] : List ℚ).getD (i + 1) 0 + ([1, 1, 1] : List ℚ).getD i 0) / 2) ∧
      (([0, 1, 2] : List ℚ).length ≤ 1 → ntrapz [0, 1, 2] [1, 1, 1] = 0)) :=
  ⟨rfl, C9_ntrapz_trapezoidal_sum [0, 1, 2] [1, 1, 1] rfl⟩

/-- C6: for every parameter vector `x`, `LDTkLDModel.integrate` signals a
capability-not-supported failure (`NotImplementedError`), while the
generic base `LDModel.integrate` produces a value whenever its profile
evaluation does. -/
theorem C6_integrate_not_supported (m : LDTkLDModel) (x : List ℚ) (pi : ℚ)
    (sqrt : ℚ → ℚ) (f : List ℚ → List ℚ) :
    m.integrate x = Except.error PyError.notImplementedError ∧
    ∃ w : ℚ, LDModel.integrate pi sqrt (fun g => Except.ok (f g)) = Except.ok w :=
  ⟨rfl, ⟨_, rfl⟩⟩

/-- C10: `LDTkLDModel.__call__` mutates only `_i`, overwriting it with the
fresh draw (modelled by `iDraw < nsamples`) even in frozen mode, and the
returned profiles and coefficients do not depend on the stored `_i`. -/
theorem C10_call_mutates_only_i (m : LDTkLDModel) (pi : ℚ) (emu : List ℚ)
    (x : Option (List (List ℚ))) (iDraw : ℕ) (iis : List ℕ)
    (hdraw : iDraw < m.nsamples) :
    (m.call pi emu x iDraw iis).1 = { m with _i := iDraw } ∧
    ∀ j : ℕ, (LDTkLDModel.call { m with _i := j } pi emu x iDraw iis).2
        = (m.call pi emu x iDraw iis).2 :=
  ⟨rfl, fun _ => rfl⟩

/-- A concrete stochastic (non-frozen) model instance, used by witnesses. -/
def modelStoch : LDTkLDModel :=
  ⟨[0, 1], [1, 0], [[[1, 1], [2, 2]]], [[3/2, 3/2]], 1, 2, false, 0⟩

/-- A concrete frozen model instance, used by witnesses. -/
def modelFrozen : LDTkLDModel :=
  ⟨[0, 1], [1, 0], [[[1, 1], [2, 2]]], [[3/2, 3/2]], 1, 2, true, 0⟩

/-- Witness for C10 on a concrete model. -/
theorem C10_call_mutates_only_i_witness :
    (1 < modelStoch.nsamples) ∧
    ((modelStoch.call 3 [1/2] none 1 [0]).1 = { modelStoch with _i := 1 } ∧
     ∀ j : ℕ, (LDTkLDModel.call { modelStoch with _i := j } 3 [1/2] none 1 [0]).2
        = (modelStoch.call 3 [1/2] none 1 [0]).2) :=
  ⟨by decide, C10_call_mutates_only_i modelStoch 3 [1/2] none 1 [0] (by decide)⟩

/-- C7: in frozen mode, evaluation is deterministic and broadcast
consistent: two calls with the same `mu` grid and batch, whatever the
stored `_i` and whatever the random draws, produce identical outputs, and
within one call every row of the batch equals row 0. -/
theorem C7_frozen_deterministic (m : LDTkLDModel) (pi : ℚ) (emu : List ℚ)
    (x : Option (List (List ℚ))) (i1 i2 j1 j2 : ℕ) (is1 is2 : List ℕ)
    (hf : m.frozen = true) :
    ((LDTkLDModel.call { m with _i := j1 } pi emu x i1 is1).2
      = (LDTkLDModel.call { m with _i := j2 } pi emu x i2 is2).2) ∧
    ∀ k : ℕ, k < npvOf x →
      ((m.call pi emu x i1 is1).2.1.getD k [] = (m.call pi emu x i1 is1).2.1.getD 0 [] ∧
       (m.call pi emu x i1 is1).2.2.getD k [] = (m.call pi emu x i1 is1).2.2.getD 0 []) := by
  constructor
  · simp [LDTkLDModel.call, hf]
  · intro k hk
    have h0 : 0 < npvOf x := lt_of_le_of_lt (Nat.zero_le k) hk
    constructor <;>
      simp only [LDTkLDModel.call, hf, if_true, eval_ldm_frozen] <;>
      rw [getD_range_map _ hk, getD_range_map _ h0]

/-- Witness for C7 on a concrete frozen model. -/
theorem C7_frozen_deterministic_witness :
    (modelFrozen.frozen = true) ∧
    (((LDTkLDModel.call { modelFrozen with _i := 5 } 3 [1/2] none 0 [0]).2
      = (LDTkLDModel.call { modelFrozen with _i := 7 } 3 [1/2] none 1 [1]).2) ∧
     ∀ k : ℕ, k < npvOf none →
      ((modelFrozen.call 3 [1/2] none 0 [0]).2.1.getD k []
          = (modelFrozen.call 3 [1/2] none 0 [0]).2.1.getD 0 [] ∧
       (modelFrozen.call 3 [1/2] none 0 [0]).2.2.getD k []
          = (modelFrozen.call 3 [1/2] none 0 [0]).2.2.getD 0 [])) :=
  ⟨rfl, C7_frozen_deterministic modelFrozen 3 [1/2] none 0 1 5 7 [0] [1] rfl⟩

/-- C8: in non-frozen evaluation, each row `ipv` of the batch has a single
drawn sample index `s` (the row's entry of the hoisted draw `iis`) such
that, for every passband, both the interpolated profile and the
disk-integrated coefficient of that row are computed from the library
profile at that same `s`. -/
theorem C8_row_uses_single_draw (m : LDTkLDModel) (pi : ℚ) (emu : List ℚ)
    (x : Option (List (List ℚ))) (iDraw : ℕ) (iis : List ℕ) (ipv : ℕ)
    (hf : m.frozen = false) (hipv : ipv < npvOf x) :
    ∃ s : ℕ, s = iis.getD ipv 0 ∧ ∀ ipb : ℕ, ipb < m.profiles.length →
      (((m.call pi emu x iDraw iis).2.1.getD ipv []).getD ipb []
          = interp emu m.mu ((m.profiles.getD ipb []).getD s []) ∧
       ((m.call pi emu x iDraw iis).2.2.getD ipv []).getD ipb 0
          = -2 * pi * ntrapz m.z
              (List.zipWith (· * ·) m.z ((m.profiles.getD ipb []).getD s []))) := by
  refine ⟨iis.getD ipv 0, rfl, fun ipb hipb => ?_⟩
  constructor <;>
    simp only [LDTkLDModel.call, hf, Bool.false_eq_true, if_false, eval_ldm] <;>
    rw [getD_range_map _ hipv, getD_range_map _ hipb]

/-- Witness for C8 on a concrete stochastic model. -/
theorem C8_row_uses_single_draw_witness :
    (modelStoch.frozen = false ∧ 0 < npvOf none) ∧
    (∃ s : ℕ, s = [1].getD 0 0 ∧ ∀ ipb : ℕ, ipb < modelStoch.profiles.length →
      (((modelStoch.call 3 [1/2] none 0 [1]).2.1.getD 0 []).getD ipb []
          = interp [1/2] modelStoch.mu ((modelStoch.profiles.getD ipb []).getD s []) ∧
       ((modelStoch.call 3 [1/2] none 0 [1]).2.2.getD 0 []).getD ipb 0
          = -2 * 3 * ntrapz modelStoch.z
              (List.zipWith (· * ·) modelStoch.z ((modelStoch.profiles.getD ipb []).getD s [])))) :=
  ⟨⟨rfl, by decide⟩,
   C8_row_uses_single_draw modelStoch 3 [1/2] none 0 [1] 0 rfl (by decide)⟩

/-- C2: the sampled model's disk-integrated coefficient for each
`(row, passband)` is `-2π` times the trapezoidal integral of `z·I(z)` over
the library's native `z` grid — for a drawn profile that is constant `1`
over a `z` grid spanning `[0, 1]` it equals `-pi` exactly — whereas the
base model's `integrate` omits the negative sign and is strictly positive
for an everywhere-positive profile. -/
theorem C2_integration_sign_convention (pi : ℚ) (hpi : 0 < pi) (sqrt : ℚ → ℚ)
    (emu mu z : List ℚ) (ldps : List (List (List ℚ))) (npv nsamples : ℕ)
    (iis : List ℕ) (ipv ipb : ℕ) (hipv : ipv < npv) (hipb : ipb < ldps.length)
    (hz0 : z.headD 0 = 0) (hz1 : z.getLast?.getD 0 = 1)
    (hlen : z.length ≤ ((ldps.getD ipb []).getD (iis.getD ipv 0) []).length)
    (hone : ∀ v ∈ (ldps.getD ipb []).getD (iis.getD ipv 0) [], v = 1)
    (f : List ℚ → List ℚ)
    (hflen : LDModel_int_z.length ≤ (f (LDModel_int_mu sqrt)).length)
    (hfpos : ∀ v ∈ f (LDModel_int_mu sqrt), 0 < v) :
    (((eval_ldm pi emu mu z ldps npv nsamples iis).2.getD ipv []).getD ipb 0 = -pi) ∧
    ∃ w : ℚ, LDModel.integrate pi sqrt (fun g => Except.ok (f g)) = Except.ok w ∧ 0 < w := by
  constructor
  · simp only [eval_ldm]
    rw [getD_range_map _ hipv, getD_range_map _ hipb,
      zipWith_mul_ones z _ hlen hone, ntrapz_eq_np_trapz z z rfl, np_trapz_self, hz1, hz0]
    ring
  · refine ⟨2 * pi *
      np_trapz (List.zipWith (· * ·) LDModel_int_z (f (LDModel_int_mu sqrt))) LDModel_int_z,
      rfl, ?_⟩
    set p := f (LDModel_int_mu sqrt) with hp
    have hp200 : 200 ≤ p.length := by rw [length_int_z] at hflen; exact hflen
    have hzlen : (2:ℕ) ≤ LDModel_int_z.length := by rw [length_int_z]; norm_num
    have hylen : LDModel_int_z.length ≤ (List.zipWith (· * ·) LDModel_int_z p).length := by
      rw [List.length_zipWith]
      exact le_min (le_refl _) hflen
    have h01 : LDModel_int_z.getD 0 0 < LDModel_int_z.getD 1 0 := by
      rw [int_z_getD (by norm_num), int_z_getD (by norm_num)]
      norm_num
    have hy0 : (List.zipWith (· * ·) LDModel_int_z p).getD 0 0 = 0 := by
      rw [getD_zipWith_mul _ _ 0 (by rw [length_int_z]; norm_num) (by omega),
        int_z_getD (by norm_num)]
      norm_num
    have hy1 : 0 < (List.zipWith (· * ·) LDModel_int_z p).getD 1 0 := by
      rw [getD_zipWith_mul _ _ 1 (by rw [length_int_z]; norm_num) (by omega),
        int_z_getD (by norm_num)]
      have hmem : p.getD 1 0 ∈ p := by
        rw [List.getD_eq_getElem _ _ (by omega)]
        exact List.getElem_mem (by omega)
      have h1p := hfpos _ hmem
      have : (0:ℚ) < (1:ℚ) * (1/199) := by norm_num
      positivity
    have hys : ∀ v ∈ List.zipWith (· * ·) LDModel_int_z p, (0:ℚ) ≤ v :=
      zipWith_mul_nonneg _ _ int_z_mem_nonneg fun v hv => le_of_lt (hfpos v hv)
    have hpos := np_trapz_pos' LDModel_int_z _ int_z_chain hzlen hylen h01
      (le_of_eq hy0.symm) hy1 hys
    have h2pi : (0:ℚ) < 2 * pi := by linarith
    calc (0:ℚ) < (2 * pi) *
          np_trapz (List.zipWith (· * ·) LDModel_int_z p) LDModel_int_z :=
        mul_pos h2pi hpos
      _ = 2 * pi * np_trapz (List.zipWith (· * ·) LDModel_int_z p) LDModel_int_z := by ring

/-- Witness for C2 at `pi := 3`, a three-point grid `[0, 1/2, 1]`, an
all-ones library profile and a constant-one base-model profile. -/
theorem C2_integration_sign_convention_witness :
    ((0:ℚ) < 3 ∧ (0:ℕ) < 1 ∧ (0:ℕ) < 1 ∧
     ([0, 1/2, 1] : List ℚ).headD 0 = 0 ∧ ([0, 1/2, 1] : List ℚ).getLast?.getD 0 = 1 ∧
     ([0, 1/2, 1] : List ℚ).length ≤
       (([[[1, 1, 1]]].getD 0 []).getD ([0].getD 0 0) []).length ∧
     (∀ v ∈ ([[[1, 1, 1]]].getD 0 []).getD (([0] : List ℕ).getD 0 0) [], v = (1:ℚ)) ∧
     LDModel_int_z.length ≤
       ((fun _ : List ℚ => List.replicate 200 (1:ℚ)) (LDModel_int_mu (fun q => q))).length ∧
     (∀ v ∈ (fun _ : List ℚ => List.replicate 200 (1:ℚ)) (LDModel_int_mu (fun q => q)),
        (0:ℚ) < v)) ∧
    ((((eval_ldm 3 [1/2] [1, 0] [0, 1/2, 1] [[[1, 1, 1]]] 1 1 [0]).2.getD 0 []).getD 0 0
        = -3) ∧
     ∃ w : ℚ, LDModel.integrate 3 (fun q => q)
        (fun g => Except.ok ((fun _ : List ℚ => List.replicate 200 (1:ℚ)) g))
          = Except.ok w ∧ 0 < w) :=
  ⟨⟨by norm_num, by norm_num, by norm_num, rfl, rfl, by decide, by decide,
    by rw [length_int_z,
      show ((fun _ : List ℚ => List.replicate 200 (1:ℚ)) (LDModel_int_mu (fun q => q)))
        = List.replicate 200 (1:ℚ) from rfl, List.length_replicate],
    by intro v hv; rw [List.eq_of_mem_replicate hv]; norm_num⟩,
   C2_integration_sign_convention 3 (by norm_num) (fun q => q) [1/2] [1, 0] [0, 1/2, 1]
     [[[1, 1, 1]]] 1 1 [0] 0 0 (by norm_num) (by norm_num) rfl rfl (by decide) (by decide)
     (fun _ => List.replicate 200 1)
     (by rw [length_int_z,
        show ((fun _ : List ℚ => List.replicate 200 (1:ℚ)) (LDModel_int_mu (fun q => q)))
          = List.replicate 200 (1:ℚ) from rfl, List.length_replicate])
     (by intro v hv; rw [List.eq_of_mem_replicate hv]; norm_num)⟩

lemma le_foldl_max (l : List ℚ) : ∀ a : ℚ, a ≤ l.foldl max a := by
  induction l with
  | nil => intro a; simp
  | cons b t ih => intro a; exact le_trans (le_max_left a b) (ih (max a b))

lemma foldl_min_le (l : List ℚ) : ∀ a : ℚ, l.foldl min a ≤ a := by
  induction l with
  | nil => intro a; simp
  | cons b t ih => intro a; exact le_trans (ih (min a b)) (min_le_left a b)

lemma npMin_le_npMax (l : List ℚ) : npMin l ≤ npMax l :=
  le_trans (foldl_min_le l (l.headD 0)) (le_foldl_max l (l.headD 0))

/-- C1 counterexample: on an unsorted series whose first element is not its
minimum (`time = [1/2, 0, 3/5, 7/10]`, `Δ = 1`), the binner anchored at
`time[0]` produces a different output than the spec's `min(time)`-anchored
binning, so the bin-edge origin does depend on index order. -/
theorem C1_counterexample :
    downsample_time (fun q => q) [1/2, 0, 3/5, 7/10] [1, 2, 3, 4] 1 ≠
      downsample_time_minOrigin (fun q => q) [1/2, 0, 3/5, 7/10] [1, 2, 3, 4] 1 := by
  decide

/-- C1 (amended): the binner uses `ceil((max-min)/Δ)` bins, but anchors the
bin edges at `time[0]`, the FIRST element of the series, not at `min(time)`;
whenever the first element is the minimum — in particular for sorted input,
as at the only call site — it coincides with the min-anchored binning of the
spec. -/
theorem C1_amended_edge_anchor (sqrt : ℚ → ℚ) (time vals : List ℚ) (Δ : ℚ)
    (hfirst : time.headD 0 = npMin time) :
    downsample_time sqrt time vals Δ = downsample_time_minOrigin sqrt time vals Δ := by
  cases time with
  | nil => rfl
  | cons t0 ts =>
    have he : edgesOf (t0 :: ts) Δ = edgesMinOrigin (t0 :: ts) Δ := by
      unfold edgesOf edgesMinOrigin
      rw [hfirst]
    unfold downsample_time downsample_time_minOrigin bidsOf bidsMinOrigin
    rw [he]

/-- Witness for C1 (amended) on a sorted series. -/
theorem C1_amended_edge_anchor_witness :
    (([0, 1, 2] : List ℚ).headD 0 = npMin [0, 1, 2]) ∧
    downsample_time (fun q => q) [0, 1, 2] [5, 5, 5] 1
      = downsample_time_minOrigin (fun q => q) [0, 1, 2] [5, 5, 5] 1 :=
  ⟨by decide, C1_amended_edge_anchor (fun q => q) [0, 1, 2] [5, 5, 5] 1 (by decide)⟩

/-- C3 counterexample: with `Δ = -1 ≤ 0` and the series `[5, 5, 5]`, the
binner raises nothing and silently returns the degenerate zero-bin output,
refuting "fails fast with a descriptive domain error". -/
theorem C3_counterexample :
    downsample_time (fun q => q) [5, 5, 5] [1, 1, 1] (-1) = Except.ok ([], [], []) := by
  decide

/-- C3 (amended): the binner performs no bin-width validation.  For
`Δ < 0` it either fails with numpy's incidental negative-array-size error
(when `ceil((max-min)/Δ) < 0`) or, when the bin count rounds to zero
(e.g. all times equal), silently returns three empty arrays; `Δ = 0`
makes `int(ceil(duration/0))` undefined (modelled as an error).  No
descriptive domain error is ever raised. -/
theorem C3_amended_no_width_validation (sqrt : ℚ → ℚ) (time vals : List ℚ) (Δ : ℚ)
    (hne : time ≠ []) (hΔ : Δ < 0) :
    downsample_time sqrt time vals Δ =
      if (⌈(npMax time - npMin time) / Δ⌉ : Int) < 0 then
        Except.error "negative dimensions are not allowed"
      else Except.ok ([], [], []) := by
  cases time with
  | nil => exact absurd rfl hne
  | cons t0 ts =>
    have hΔ0 : ¬ (Δ = 0) := ne_of_lt hΔ
    by_cases hneg : (⌈(npMax (t0 :: ts) - npMin (t0 :: ts)) / Δ⌉ : Int) < 0
    · simp [downsample_time, hΔ0, hneg]
    · have hd : 0 ≤ npMax (t0 :: ts) - npMin (t0 :: ts) := by
        have := npMin_le_npMax (t0 :: ts)
        linarith
      have hdiv : (npMax (t0 :: ts) - npMin (t0 :: ts)) / Δ ≤ 0 :=
        div_nonpos_of_nonneg_of_nonpos hd (le_of_lt hΔ)
      have hceil : (⌈(npMax (t0 :: ts) - npMin (t0 :: ts)) / Δ⌉ : Int) ≤ 0 := by
        rw [Int.ceil_le]
        exact_mod_cast hdiv
      have hz : nbinsOf (t0 :: ts) Δ = 0 := by
        unfold nbinsOf
        exact Int.toNat_of_nonpos hceil
      simp [downsample_time, hΔ0, hneg, hz]

/-- Witness for C3 (amended) at `Δ = -1` on an all-equal series. -/
theorem C3_amended_no_width_validation_witness :
    (([5, 5] : List ℚ) ≠ [] ∧ (-1 : ℚ) < 0) ∧
    downsample_time (fun q => q) [5, 5] [1, 1] (-1) =
      (if (⌈(npMax [5, 5] - npMin [5, 5]) / (-1 : ℚ)⌉ : Int) < 0 then
        Except.error "negative dimensions are not allowed"
      else Except.ok ([], [], [])) :=
  ⟨⟨by decide, by decide⟩,
   C3_amended_no_width_validation (fun q => q) [5, 5] [1, 1] (-1) (by decide) (by decide)⟩

/-- C4 counterexample: on an empty series the binner does not return the
three empty arrays — `time.max()` raises first. -/
theorem C4_counterexample :
    downsample_time (fun q => q) [] [] 1 ≠ Except.ok ([], [], []) := by
  decide

/-- C4 (amended): for an empty input series and any bin width, the binner
raises numpy's zero-size-reduction error from `time.max()`; it never
returns the empty output. -/
theorem C4_amended_empty_input_raises (sqrt : ℚ → ℚ) (vals : List ℚ) (Δ : ℚ) :
    downsample_time sqrt [] vals Δ =
      Except.error "zero-size array to reduction operation maximum which has no identity" :=
  rfl

lemma keptBinAmended_eq_binRow (sqrt : ℚ → ℚ) (time vals : List ℚ) (bids : List Int)
    (i : ℕ) :
    keptBinAmended sqrt time vals bids i
      = (binRow sqrt time vals bids i).2.2.map
          (fun c => ((binRow sqrt time vals bids i).1, (binRow sqrt time vals bids i).2.1, c)) := by
  unfold keptBinAmended binRow
  by_cases h0 : (selectBin time bids (i : Int)).length = 0
  · simp [h0]
  · by_cases h2 : 2 < (selectBin time bids (i : Int)).length
    · simp [h0, h2]
    · simp [h0, h2]

lemma filter_isSome_eq_filterMap (gr : ℕ → Option ℚ × ℚ × Option ℚ)
    (gs : ℕ → Option (Option ℚ × ℚ × ℚ))
    (hpt : ∀ i, gs i = (gr i).2.2.map (fun c => ((gr i).1, (gr i).2.1, c))) :
    ∀ l : List ℕ,
      ((l.map gr).filter (fun r => r.2.2.isSome)).map (fun r => (r.1, r.2.1, r.2.2.getD 0))
        = l.filterMap gs := by
  intro l
  induction l with
  | nil => simp
  | cons i t ih =>
    rw [List.map_cons, List.filter_cons, List.filterMap_cons, hpt i]
    cases hgi : (gr i).2.2 with
    | none => simp [hgi, ih]
    | some c => simp [hgi, ih]

/-- C5 counterexample: the series `[0, 5/2]` with `Δ = 1` has at most two
points in every bin (its three bins hold 1, 0 and 1 samples), yet the
binner retains ONE bin — the empty middle bin, whose error entry kept its
zero initialization and passed the finiteness filter with a `nan`
(`none`) mean time — refuting "yields zero retained bins". -/
theorem C5_counterexample :
    downsample_time (fun q => q) [0, 5/2] [1, 1] 1 = Except.ok ([none], [0], [0]) := by
  decide

/-- C5 (amended): for every non-empty series and `Δ > 0`, the output is
exactly the in-order filtering of the per-bin rows in which a bin with
more than two samples is kept as
`(mean time, mean value, std(values)/sqrt(count))` (the standard error
using numpy's `ddof=0` standard deviation of the bin's values), a bin
with one or two samples gets the `nan` error sentinel (no exception) and
is dropped, and an EMPTY bin is kept with `nan` mean time and zero error,
because the error array is initialized with zeros rather than `nan`. -/
theorem C5_amended_retention_rule (sqrt : ℚ → ℚ) (time vals : List ℚ) (Δ : ℚ)
    (hne : time ≠ []) (hΔ : 0 < Δ) :
    downsample_time sqrt time vals Δ =
      Except.ok
        (((List.range (nbinsOf time Δ)).filterMap
            (keptBinAmended sqrt time vals (bidsOf time Δ))).map (fun r => r.1),
         ((List.range (nbinsOf time Δ)).filterMap
            (keptBinAmended sqrt time vals (bidsOf time Δ))).map (fun r => r.2.1),
         ((List.range (nbinsOf time Δ)).filterMap
            (keptBinAmended sqrt time vals (bidsOf time Δ))).map (fun r => r.2.2)) := by
  cases time with
  | nil => exact absurd rfl hne
  | cons t0 ts =>
    have hΔ0 : ¬ (Δ = 0) := ne_of_gt hΔ
    have hd : 0 ≤ npMax (t0 :: ts) - npMin (t0 :: ts) := by
      have := npMin_le_npMax (t0 :: ts)
      linarith
    have hceil : ¬ ((⌈(npMax (t0 :: ts) - npMin (t0 :: ts)) / Δ⌉ : Int) < 0) := by
      rw [not_lt]
      exact Int.ceil_nonneg (div_nonneg hd (le_of_lt hΔ))
    have h3 := filter_isSome_eq_filterMap
      (binRow sqrt (t0 :: ts) vals (bidsOf (t0 :: ts) Δ))
      (keptBinAmended sqrt (t0 :: ts) vals (bidsOf (t0 :: ts) Δ))
      (keptBinAmended_eq_binRow sqrt (t0 :: ts) vals (bidsOf (t0 :: ts) Δ))
      (List.range (nbinsOf (t0 :: ts) Δ))
    simp only [downsample_time, hΔ0, if_false, hceil]
    rw [← h3]
    simp [List.map_map, Function.comp]

/-- Witness for C5 (amended): a series with a three-sample bin, an empty
bin and a one-sample bin. -/
theorem C5_amended_retention_rule_witness :
    (([0, 1/4, 1/2, 9/4] : List ℚ) ≠ [] ∧ (0:ℚ) < 1) ∧
    downsample_time (fun q => q) [0, 1/4, 1/2, 9/4] [1, 2, 3, 4] 1 =
      Except.ok
        (((List.range (nbinsOf [0, 1/4, 1/2, 9/4] 1)).filterMap
            (keptBinAmended (fun q => q) [0, 1/4, 1/2, 9/4] [1, 2, 3, 4]
              (bidsOf [0, 1/4, 1/2, 9/4] 1))).map (fun r => r.1),
         ((List.range (nbinsOf [0, 1/4, 1/2, 9/4] 1)).filterMap
            (keptBinAmended (fun q => q) [0, 1/4, 1/2, 9/4] [1, 2, 3, 4]
              (bidsOf [0, 1/4, 1/2, 9/4] 1))).map (fun r => r.2.1),
         ((List.range (nbinsOf [0, 1/4, 1/2, 9/4] 1)).filterMap
            (keptBinAmended (fun q => q) [0, 1/4, 1/2, 9/4] [1, 2, 3, 4]
              (bidsOf [0, 1/4, 1/2, 9/4] 1))).map (fun r => r.2.2)) :=
  ⟨⟨by decide, by decide⟩,
   C5_amended_retention_rule (fun q => q) [0, 1/4, 1/2, 9/4] [1, 2, 3, 4] 1
     (by decide) (by decide)⟩
